import Mathlib

set_option maxHeartbeats 1000000
set_option maxRecDepth 4000

/-!
Shallow embedding of the `rics` event-calendar pipeline.

The definitions below are translated from the repository sources:
`src/model.rs` (time specs, candidate events, stored records, state),
`src/pipeline.rs` (stable UID, revision hash, merge engine, sync loop),
`src/ics.rs` (line folding) and `src/store.rs` (state serialization).
Machine integers (`u32`) are modelled as `Nat` with explicit saturation at
`2^32 - 1`; external library behaviour that the pipeline relies on
(SHA-256 from the `sha2` crate, serde_json encoding, chrono dates) is
modelled explicitly where a claim depends on it.
-/

/-- Calendar date, modelling `chrono::NaiveDate` by its civil components.
Valid dates (the only ones `chrono` can construct) compare chronologically,
which coincides with lexicographic comparison of `(year, month, day)`. -/
structure NaiveDate where
  year : Int
  month : Nat
  day : Nat
  deriving DecidableEq, Repr

/-- Proleptic-Gregorian leap-year rule used by `chrono`. -/
def leapYear (y : Int) : Bool :=
  y % 4 == 0 && (y % 100 != 0 || y % 400 == 0)

/-- Number of days in a month of the proleptic Gregorian calendar. -/
def daysInMonth (y : Int) (m : Nat) : Nat :=
  if m = 2 then (if leapYear y then 29 else 28)
  else if m = 4 ∨ m = 6 ∨ m = 9 ∨ m = 11 then 30
  else 31

/-- `chrono::NaiveDate::from_ymd_opt`: `some` exactly for real calendar dates.
`chrono` additionally bounds representable years to `-262144 ..= 262143`. -/
def NaiveDate.from_ymd_opt (y : Int) (m d : Nat) : Option NaiveDate :=
  if 1 ≤ m ∧ m ≤ 12 ∧ 1 ≤ d ∧ d ≤ daysInMonth y m ∧ -262144 ≤ y ∧ y ≤ 262143 then
    some ⟨y, m, d⟩
  else none

/-- Chronological `≤` on dates (lexicographic on year, month, day). -/
def NaiveDate.ble (a b : NaiveDate) : Bool :=
  if a.year < b.year then true
  else if b.year < a.year then false
  else if a.month < b.month then true
  else if b.month < a.month then false
  else Nat.ble a.day b.day

/-- UTC instant, modelling `chrono::DateTime<Utc>` by its civil date and the
second within that day. Sub-second precision is not used by the pipeline
logic under verification and is not modelled. -/
structure Timestamp where
  date : NaiveDate
  secs : Nat
  deriving DecidableEq, Repr

/-- `DateTime::date_naive`. -/
def Timestamp.date_naive (t : Timestamp) : NaiveDate := t.date

/-- The tagged time-spec variant from `src/model.rs` (`EventTimeSpec`).
Rust's reserved-word-free field names `end` are rendered `endTime`/`endDate`. -/
inductive EventTimeSpec where
  | dateTime (start : Timestamp) (endTime : Option Timestamp)
  | date (start : NaiveDate) (endDate : Option NaiveDate)
  | month (year : Int) (month : Nat)
  | quarter (year : Int) (quarter : Nat)
  | year (year : Int)
  | tbd (note : Option String)
  deriving DecidableEq, Repr

/-- `EventTimeSpec::year_bucket` from `src/model.rs`. -/
def EventTimeSpec.year_bucket : EventTimeSpec → Option Int
  | .dateTime s _ => some s.date.year
  | .date s _ => some s.year
  | .month y _ => some y
  | .quarter y _ => some y
  | .year y => some y
  | .tbd _ => none

/-- `EventTimeSpec::is_future_relative_to` from `src/model.rs`.
`u32::saturating_sub` on the quarter index is `Nat` subtraction. -/
def EventTimeSpec.is_future_relative_to (t : EventTimeSpec) (today : NaiveDate) : Bool :=
  match t with
  | .dateTime s _ => today.ble s.date
  | .date s _ => today.ble s
  | .month y m => (NaiveDate.from_ymd_opt y m 1).elim false (fun d => today.ble d)
  | .quarter y q =>
      (NaiveDate.from_ymd_opt y (1 + (q - 1) * 3) 1).elim false (fun d => today.ble d)
  | .year y => (NaiveDate.from_ymd_opt y 1 1).elim false (fun d => today.ble d)
  | .tbd _ => true

/-- Candidate event (`src/model.rs`).  `importance : Option<u8>` is a small
`Nat`; `confidence : Option<f32>` is modelled by its IEEE-754 bit pattern —
the pipeline under verification only ever copies this field.  `metadata`
models a `BTreeMap<String, String>` as its (key-sorted) entry list. -/
structure CandidateEvent where
  source_key : String
  source_name : String
  source_event_id : Option String
  source_url : Option String
  title : String
  description : Option String
  time : EventTimeSpec
  timezone : Option String
  status : String
  event_type : String
  subtype : Option String
  categories : List String
  jurisdiction : Option String
  country : Option String
  importance : Option Nat
  confidence : Option Nat
  metadata : List (String × String)
  deriving DecidableEq, Repr

/-- Stored event record (`src/model.rs`). -/
structure EventRecord where
  uid : String
  source_key : String
  source_name : String
  source_event_id : Option String
  source_url : Option String
  title : String
  description : Option String
  time : EventTimeSpec
  timezone : Option String
  status : String
  event_type : String
  subtype : Option String
  categories : List String
  jurisdiction : Option String
  country : Option String
  importance : Option Nat
  confidence : Option Nat
  metadata : List (String × String)
  sequence : Nat
  revision_hash : String
  created_at : Timestamp
  last_modified : Timestamp
  last_seen_at : Timestamp
  deriving DecidableEq, Repr

/-- `EventRecord::year_bucket`. -/
def EventRecord.year_bucket (r : EventRecord) : Option Int := r.time.year_bucket

/-- `EventRecord::is_future_relative_to`. -/
def EventRecord.is_future_relative_to (r : EventRecord) (d : NaiveDate) : Bool :=
  r.time.is_future_relative_to d

/-- Per-source run report (`src/model.rs`). -/
structure SourceRunReport where
  source_key : String := ""
  pages_fetched : Nat := 0
  records_parsed : Nat := 0
  inserted : Nat := 0
  updated : Nat := 0
  cancelled : Nat := 0
  unchanged : Nat := 0
  deriving DecidableEq, Repr

/-- Durable state (`src/model.rs`): `events` models `BTreeMap<String,
EventRecord>` as its entry list; the B-tree keeps the keys strictly sorted,
which appears below as an explicit hypothesis where it matters. -/
structure State where
  schema_version : Nat
  events : List (String × EventRecord)
  deriving DecidableEq, Repr

/-- `BTreeMap::get` on the entry-list model. -/
def getEvent : List (String × EventRecord) → String → Option EventRecord
  | [], _ => none
  | (k, v) :: rest, u => if k = u then some v else getEvent rest u

/-- Overwriting the value behind `BTreeMap::get_mut`: replaces the record
stored at an existing key, keeping the entry order; no-op on an absent key. -/
def setEvent : List (String × EventRecord) → String → EventRecord → List (String × EventRecord)
  | [], _, _ => []
  | (k, v) :: rest, u, r => if k = u then (k, r) :: rest else (k, v) :: setEvent rest u r

/-- `BTreeMap::insert`: replaces the record on an existing key, otherwise
adds the entry at its sorted position (the B-tree keeps keys ordered). -/
def insertEvent : List (String × EventRecord) → String → EventRecord → List (String × EventRecord)
  | [], u, r => [(u, r)]
  | (k, v) :: rest, u, r =>
    if u < k then (u, r) :: (k, v) :: rest
    else if u = k then (u, r) :: rest
    else (k, v) :: insertEvent rest u r

/-- `u32::MAX`. -/
def u32MAX : Nat := 4294967295

/-- `u32::saturating_add` on values already within `u32` range. -/
def satAdd32 (a b : Nat) : Nat := min (a + b) u32MAX

/-- Insert into a sorted string list (`Vec::sort` is modelled by insertion
sort: on a totally ordered element type both produce the unique sorted
rearrangement, equal duplicates being indistinguishable). -/
def insertSorted (x : String) : List String → List String
  | [] => [x]
  | y :: ys => if x ≤ y then x :: y :: ys else y :: insertSorted x ys

/-- `Vec::<String>::sort`. -/
def sortStrings : List String → List String
  | [] => []
  | x :: xs => insertSorted x (sortStrings xs)

/-- `Vec::dedup`: removes consecutive duplicates. -/
def dedupAdj : List String → List String
  | [] => []
  | [a] => [a]
  | a :: b :: rest => if a = b then dedupAdj (b :: rest) else a :: dedupAdj (b :: rest)

/-- The `candidate.categories.sort(); candidate.categories.dedup();`
normalization done at the top of the merge loop (`src/pipeline.rs`). -/
def normalizeCandidate (c : CandidateEvent) : CandidateEvent :=
  { c with categories := dedupAdj (sortStrings c.categories) }

/-! ### SHA-256 (FIPS 180-4), as computed by the `sha2` crate -/

/-- Truncate to a 32-bit word. -/
def w32 (n : Nat) : Nat := n % 4294967296

/-- Addition modulo `2^32`. -/
def add32 (a b : Nat) : Nat := (a + b) % 4294967296

/-- Right rotation of a 32-bit word. -/
def rotr32 (n x : Nat) : Nat := w32 ((x >>> n) ||| (x <<< (32 - n)))

/-- SHA-256 round constants. -/
def sha256K : List Nat :=
  [1116352408, 1899447441, 3049323471, 3921009573, 961987163,
   1508970993, 2453635748, 2870763221, 3624381080, 310598401,
   607225278, 1426881987, 1925078388, 2162078206, 2614888103,
   3248222580, 3835390401, 4022224774, 264347078, 604807628,
   770255983, 1249150122, 1555081692, 1996064986, 2554220882,
   2821834349, 2952996808, 3210313671, 3336571891, 3584528711,
   113926993, 338241895, 666307205, 773529912, 1294757372,
   1396182291, 1695183700, 1986661051, 2177026350, 2456956037,
   2730485921, 2820302411, 3259730800, 3345764771, 3516065817,
   3600352804, 4094571909, 275423344, 430227734, 506948616,
   659060556, 883997877, 958139571, 1322822218, 1537002063,
   1747873779, 1955562222, 2024104815, 2227730452, 2361852424,
   2428436474, 2756734187, 3204031479, 3329325298]

/-- SHA-256 initial hash value. -/
def sha256H0 : List Nat :=
  [1779033703, 3144134277, 1013904242, 2773480762,
   1359893119, 2600822924, 528734635, 1541459225]

/-- Big-endian bytes of a value, fixed width. -/
def beBytes : Nat → Nat → List Nat
  | 0, _ => []
  | w + 1, n => (n >>> (8 * w)) % 256 :: beBytes w n

/-- SHA-256 padding: append `0x80`, zeros to 56 mod 64, then the 64-bit
big-endian bit length. -/
def shaPad (msg : List Nat) : List Nat :=
  let z := (64 + 56 - (msg.length + 1) % 64) % 64
  msg ++ [0x80] ++ List.replicate z 0 ++ beBytes 8 (8 * msg.length)

/-- Split a byte list into chunks of `n + 1` elements. -/
def chunkBytes (n : Nat) : List Nat → List (List Nat)
  | [] => []
  | x :: xs => ((x :: xs).take (n + 1)) :: chunkBytes n ((x :: xs).drop (n + 1))
  termination_by l => l.length
  decreasing_by simp [List.length_drop]; omega

/-- Big-endian 32-bit words from a byte list. -/
def bytesToWords (l : List Nat) : List Nat :=
  (chunkBytes 3 l).map (fun c => c.foldl (fun acc b => acc * 256 + b) 0)

/-- Small sigma 0. -/
def ssig0 (x : Nat) : Nat := rotr32 7 x ^^^ rotr32 18 x ^^^ (x >>> 3)

/-- Small sigma 1. -/
def ssig1 (x : Nat) : Nat := rotr32 17 x ^^^ rotr32 19 x ^^^ (x >>> 10)

/-- Big sigma 0. -/
def bsig0 (x : Nat) : Nat := rotr32 2 x ^^^ rotr32 13 x ^^^ rotr32 22 x

/-- Big sigma 1. -/
def bsig1 (x : Nat) : Nat := rotr32 6 x ^^^ rotr32 11 x ^^^ rotr32 25 x

/-- Message-schedule extension: append words until 64 are present. -/
def extendW : Nat → List Nat → List Nat
  | 0, w => w
  | n + 1, w =>
    let t := w.length
    let wt := add32 (add32 (ssig1 (w.getD (t - 2) 0)) (w.getD (t - 7) 0))
                    (add32 (ssig0 (w.getD (t - 15) 0)) (w.getD (t - 16) 0))
    extendW n (w ++ [wt])

/-- One SHA-256 compression round. -/
def shaRound (st : List Nat) (kw : Nat × Nat) : List Nat :=
  match st with
  | [a, b, c, d, e, f, g, h] =>
    let ch := (e &&& f) ^^^ ((e ^^^ 4294967295) &&& g)
    let maj := (a &&& b) ^^^ (a &&& c) ^^^ (b &&& c)
    let t1 := add32 (add32 (add32 h (bsig1 e)) (add32 ch kw.1)) kw.2
    let t2 := add32 (bsig0 a) maj
    [add32 t1 t2, a, b, c, add32 d t1, e, f, g]
  | other => other

/-- Compress one 64-byte block into the running hash. -/
def compressBlock (h : List Nat) (block : List Nat) : List Nat :=
  let w := extendW 48 (bytesToWords block)
  let final := (sha256K.zip w).foldl shaRound h
  (h.zip final).map (fun p => add32 p.1 p.2)

/-- SHA-256 digest (32 bytes) of a byte list. -/
def sha256 (msg : List Nat) : List Nat :=
  let hs := (chunkBytes 63 (shaPad msg)).foldl compressBlock sha256H0
  (hs.map (beBytes 4)).flatten

/-- Lower-case hex digit. -/
def hexDigit (n : Nat) : Char :=
  ("0123456789abcdef".data).getD n '0'

/-- `hex::encode`. -/
def hexOfBytes (bytes : List Nat) : String :=
  String.mk (bytes.flatMap (fun b => [hexDigit (b / 16), hexDigit (b % 16)]))

/-- UTF-8 encoding of one scalar value. -/
def utf8EncodeCharNat (c : Char) : List Nat :=
  let n := c.toNat
  if n < 0x80 then [n]
  else if n < 0x800 then [0xC0 ||| (n >>> 6), 0x80 ||| (n &&& 0x3F)]
  else if n < 0x10000 then
    [0xE0 ||| (n >>> 12), 0x80 ||| ((n >>> 6) &&& 0x3F), 0x80 ||| (n &&& 0x3F)]
  else
    [0xF0 ||| (n >>> 18), 0x80 ||| ((n >>> 12) &&& 0x3F),
     0x80 ||| ((n >>> 6) &&& 0x3F), 0x80 ||| (n &&& 0x3F)]

/-- UTF-8 bytes of a string (`str::as_bytes`). -/
def utf8Bytes (s : String) : List Nat := s.data.flatMap utf8EncodeCharNat

/-! ### Stable UID and revision hash (`src/pipeline.rs`) -/

/-- ASCII lower-casing of one character. -/
def asciiLowerChar (c : Char) : Char :=
  if 'A' ≤ c ∧ c ≤ 'Z' then Char.ofNat (c.toNat + 32) else c

/-- `str::to_lowercase`.  Unicode case mapping beyond ASCII is the identity
in this model; the pipeline's behaviour under verification does not depend
on which lower-casing function is plugged in here. -/
def toLowerString (s : String) : String := String.mk (s.data.map asciiLowerChar)

/-- `str::eq_ignore_ascii_case`. -/
def eqIgnoreAsciiCase (a b : String) : Bool :=
  a.data.map asciiLowerChar == b.data.map asciiLowerChar

/-- `stable_uid` from `src/pipeline.rs`: identity string from the first
available of `source_event_id`, `source_url`, `(lowercased title, year
bucket or "undated")`, then the first 24 hex characters of its SHA-256
digest with the fixed `@rics.local` suffix.  (The hex digits are ASCII, so
Rust's byte slice `[..24]` is the 24-character prefix.) -/
def stable_uid (candidate : CandidateEvent) : String :=
  let identity :=
    match candidate.source_event_id with
    | some source_event_id => candidate.source_key ++ "::" ++ source_event_id
    | none =>
      match candidate.source_url with
      | some url => candidate.source_key ++ "::" ++ url
      | none =>
        candidate.source_key ++ "::" ++ toLowerString candidate.title ++ "::" ++
          ((candidate.time.year_bucket).elim "undated" (fun y => toString y))
  let digest := sha256 (utf8Bytes identity)
  String.mk ((hexOfBytes digest).data.take 24) ++ "@rics.local"

/-- `RevisionMaterial` from `src/pipeline.rs`: the exact field subset that
feeds the revision hash. -/
structure RevisionMaterial where
  source_key : String
  source_event_id : Option String
  source_url : Option String
  title : String
  description : Option String
  time : EventTimeSpec
  status : String
  event_type : String
  subtype : Option String
  categories : List String
  metadata : List (String × String)
  deriving DecidableEq, Repr

/-- Building `RevisionMaterial` from a candidate (`revision_hash`,
`src/pipeline.rs`). -/
def revisionMaterialOf (c : CandidateEvent) : RevisionMaterial :=
  { source_key := c.source_key
    source_event_id := c.source_event_id
    source_url := c.source_url
    title := c.title
    description := c.description
    time := c.time
    status := c.status
    event_type := c.event_type
    subtype := c.subtype
    categories := c.categories
    metadata := c.metadata }

/-- serde_json escaping of one character inside a JSON string. -/
def jsonEscapeChar (c : Char) : List Char :=
  if c = '"' then ['\\', '"']
  else if c = '\\' then ['\\', '\\']
  else if c = Char.ofNat 8 then ['\\', 'b']
  else if c = Char.ofNat 12 then ['\\', 'f']
  else if c = '\n' then ['\\', 'n']
  else if c = Char.ofNat 13 then ['\\', 'r']
  else if c = '\t' then ['\\', 't']
  else if c.toNat < 32 then
    ['\\', 'u', '0', '0', hexDigit (c.toNat / 16), hexDigit (c.toNat % 16)]
  else [c]

/-- serde_json rendering of a JSON string literal. -/
def jstr (s : String) : String :=
  "\"" ++ String.mk (s.data.flatMap jsonEscapeChar) ++ "\""

/-- serde_json rendering of `Option<String>` (`None` is `null`). -/
def jopt (o : Option String) : String := o.elim "null" jstr

/-- Decimal rendering of `n`, zero-padded to width `w`. -/
def padNat (w n : Nat) : String :=
  let s := toString n
  String.mk (List.replicate (w - s.length) '0') ++ s

/-- chrono's year rendering (four digits, sign for negative years). -/
def yearStr (y : Int) : String :=
  if y < 0 then "-" ++ padNat 4 y.natAbs else padNat 4 y.toNat

/-- chrono serde rendering of a `NaiveDate`. -/
def dateStr (d : NaiveDate) : String :=
  yearStr d.year ++ "-" ++ padNat 2 d.month ++ "-" ++ padNat 2 d.day

/-- chrono serde rendering of a `DateTime<Utc>` (RFC 3339, `Z` suffix;
sub-second digits are absent for the whole-second instants modelled here). -/
def timestampStr (t : Timestamp) : String :=
  dateStr t.date ++ "T" ++ padNat 2 (t.secs / 3600) ++ ":" ++
    padNat 2 (t.secs % 3600 / 60) ++ ":" ++ padNat 2 (t.secs % 60) ++ "Z"

/-- serde_json (compact) encoding of `EventTimeSpec` with its
`#[serde(tag = "kind", rename_all = "snake_case")]` representation. -/
def timeSpecJsonCompact (t : EventTimeSpec) : String :=
  match t with
  | .dateTime s e =>
    "\x7b\"kind\":\"date_time\",\"start\":" ++ jstr (timestampStr s) ++
      ",\"end\":" ++ (e.elim "null" (fun v => jstr (timestampStr v))) ++ "\x7d"
  | .date s e =>
    "\x7b\"kind\":\"date\",\"start\":" ++ jstr (dateStr s) ++
      ",\"end\":" ++ (e.elim "null" (fun v => jstr (dateStr v))) ++ "\x7d"
  | .month y m =>
    "\x7b\"kind\":\"month\",\"year\":" ++ toString y ++ ",\"month\":" ++ toString m ++ "\x7d"
  | .quarter y q =>
    "\x7b\"kind\":\"quarter\",\"year\":" ++ toString y ++ ",\"quarter\":" ++ toString q ++ "\x7d"
  | .year y => "\x7b\"kind\":\"year\",\"year\":" ++ toString y ++ "\x7d"
  | .tbd n => "\x7b\"kind\":\"tbd\",\"note\":" ++ jopt n ++ "\x7d"

/-- serde_json (compact) encoding of a string array. -/
def jsonArrayOfStrings (l : List String) : String :=
  "[" ++ String.intercalate "," (l.map jstr) ++ "]"

/-- serde_json (compact) encoding of a string-to-string map, entries in
stored (key-sorted) order. -/
def jsonObjOfPairs (l : List (String × String)) : String :=
  "\x7b" ++ String.intercalate "," (l.map (fun kv => jstr kv.1 ++ ":" ++ jstr kv.2)) ++ "\x7d"

/-- `serde_json::to_vec(&material)`: compact JSON, struct fields in
declaration order. -/
def revisionMaterialJson (m : RevisionMaterial) : String :=
  "\x7b\"source_key\":" ++ jstr m.source_key ++
    ",\"source_event_id\":" ++ jopt m.source_event_id ++
    ",\"source_url\":" ++ jopt m.source_url ++
    ",\"title\":" ++ jstr m.title ++
    ",\"description\":" ++ jopt m.description ++
    ",\"time\":" ++ timeSpecJsonCompact m.time ++
    ",\"status\":" ++ jstr m.status ++
    ",\"event_type\":" ++ jstr m.event_type ++
    ",\"subtype\":" ++ jopt m.subtype ++
    ",\"categories\":" ++ jsonArrayOfStrings m.categories ++
    ",\"metadata\":" ++ jsonObjOfPairs m.metadata ++ "\x7d"

/-- `revision_hash` from `src/pipeline.rs`: full hex SHA-256 of the
serde_json bytes of the revision material.  (The Rust function returns
`Result` only because `serde_json::to_vec` is fallible in general; for this
material it always succeeds, so the model is total.) -/
def revision_hash (candidate : CandidateEvent) : String :=
  hexOfBytes (sha256 (utf8Bytes (revisionMaterialJson (revisionMaterialOf candidate))))

/-! ### The merge engine (`merge_source_events`, `src/pipeline.rs`) -/

/-- `candidate_to_record` from `src/pipeline.rs`. -/
def candidate_to_record (candidate : CandidateEvent) (uid : String)
    (revision_hash : String) (sequence : Nat) (created_at now : Timestamp) : EventRecord :=
  { uid := uid
    source_key := candidate.source_key
    source_name := candidate.source_name
    source_event_id := candidate.source_event_id
    source_url := candidate.source_url
    title := candidate.title
    description := candidate.description
    time := candidate.time
    timezone := candidate.timezone
    status := candidate.status
    event_type := candidate.event_type
    subtype := candidate.subtype
    categories := candidate.categories
    jurisdiction := candidate.jurisdiction
    country := candidate.country
    importance := candidate.importance
    confidence := candidate.confidence
    metadata := candidate.metadata
    sequence := sequence
    revision_hash := revision_hash
    created_at := created_at
    last_modified := now
    last_seen_at := now }

/-- Accumulator for the candidate loop of `merge_source_events`: the events
map, the report counters, the `seen_uids` hash set and the `changed_years`
ordered set. -/
structure MergeAcc where
  events : List (String × EventRecord)
  report : SourceRunReport
  seen_uids : Finset String
  changed_years : Finset Int

/-- The body of the candidate loop in `merge_source_events`
(`src/pipeline.rs`, upsert classification). -/
def mergeCandidate (now : Timestamp) (acc : MergeAcc) (cand : CandidateEvent) : MergeAcc :=
  let candidate := normalizeCandidate cand
  let uid := stable_uid candidate
  let rh := revision_hash candidate
  let year_bucket := candidate.time.year_bucket
  let seen := insert uid acc.seen_uids
  match getEvent acc.events uid with
  | some existing =>
    if existing.revision_hash ≠ rh then
      let record := candidate_to_record candidate uid rh
        (satAdd32 existing.sequence 1) existing.created_at now
      { events := setEvent acc.events uid record
        report := { acc.report with updated := acc.report.updated + 1 }
        seen_uids := seen
        changed_years :=
          match year_bucket with
          | some y => insert y acc.changed_years
          | none => acc.changed_years }
    else
      { events := setEvent acc.events uid { existing with last_seen_at := now }
        report := { acc.report with unchanged := acc.report.unchanged + 1 }
        seen_uids := seen
        changed_years := acc.changed_years }
  | none =>
    let record := candidate_to_record candidate uid rh 0 now now
    { events := insertEvent acc.events uid record
      report := { acc.report with inserted := acc.report.inserted + 1 }
      seen_uids := seen
      changed_years :=
        match record.year_bucket with
        | some y => insert y acc.changed_years
        | none => acc.changed_years }

/-- The cancellation sweep of `merge_source_events` (`src/pipeline.rs`):
walk the events in stored order, auto-cancelling the current source's
records that were not seen, are still future and are not yet cancelled. -/
def sweepEvents (now : Timestamp) (today : NaiveDate) (source_key : String)
    (seen : Finset String) :
    List (String × EventRecord) → SourceRunReport → Finset Int →
    List (String × EventRecord) × SourceRunReport × Finset Int
  | [], rep, years => ([], rep, years)
  | (k, event) :: rest, rep, years =>
    if event.source_key = source_key ∧ event.uid ∉ seen ∧
        event.is_future_relative_to today ∧
        ¬ eqIgnoreAsciiCase event.status "cancelled" then
      let event' := { event with
        status := "cancelled"
        sequence := satAdd32 event.sequence 1
        last_modified := now
        last_seen_at := now }
      let rep' := { rep with cancelled := rep.cancelled + 1 }
      let years' :=
        match event'.year_bucket with
        | some y => insert y years
        | none => years
      let out := sweepEvents now today source_key seen rest rep' years'
      ((k, event') :: out.1, out.2)
    else
      let out := sweepEvents now today source_key seen rest rep years
      ((k, event) :: out.1, out.2)

/-- `merge_source_events` from `src/pipeline.rs`.  The Rust function takes
the loaded source but reads only `source.config.source.key`, passed here as
`source_key`; `today` is `now.date_naive()`; the `Result` return is always
`Ok` (see `revision_hash`). -/
def merge_source_events (state : State) (source_key : String)
    (candidates : List CandidateEvent) (report : SourceRunReport) (now : Timestamp) :
    State × SourceRunReport × Finset Int :=
  let today := now.date_naive
  let acc := candidates.foldl (mergeCandidate now)
    ⟨state.events, report, ∅, ∅⟩
  let swept := sweepEvents now today source_key acc.seen_uids acc.events
    acc.report acc.changed_years
  ({ state with events := swept.1 }, swept.2)

/-! ### Line folding (`fold_line`, `src/ics.rs`) -/

/-- UTF-8 byte length of an accumulated character list. -/
def utf8Len (l : List Char) : Nat := (l.map Char.utf8Size).sum

/-- The loop body of `fold_line`: on overflow push the current chunk (with a
leading space unless it is the first), clear, then append the character. -/
def foldStep (st : List (List Char) × List Char) (ch : Char) :
    List (List Char) × List Char :=
  let chunks := st.1
  let current := st.2
  if utf8Len current + ch.utf8Size > 75 then
    match chunks with
    | [] => ([current], [ch])
    | _ => (chunks ++ [' ' :: current], [ch])
  else (chunks, current ++ [ch])

/-- `fold_line` from `src/ics.rs`: lines of at most 75 bytes pass through;
longer lines are chunked, continuations gaining a leading space. -/
def fold_line (line : String) : List String :=
  if line.utf8ByteSize ≤ 75 then [line]
  else
    let st := line.data.foldl foldStep ([], [])
    let chunks :=
      if st.2.isEmpty then st.1
      else
        match st.1 with
        | [] => [st.2]
        | _ => st.1 ++ [' ' :: st.2]
    chunks.map String.mk

/-! ### State serialization (`save_state`, `src/store.rs`) -/

/-- `n` spaces. -/
def spacesStr (n : Nat) : String := String.mk (List.replicate n ' ')

/-- serde_json pretty printing of an object whose field values are already
rendered: entries in the given order, two-space indent steps, the closing
brace at indentation `ind`; an empty object collapses.  No trailing newline
is ever appended. -/
def objectPretty (ind : Nat) (fields : List (String × String)) : String :=
  match fields with
  | [] => "\x7b\x7d"
  | f :: rest =>
    "\x7b\n" ++
      String.intercalate ",\n"
        ((f :: rest).map (fun kv => spacesStr (ind + 2) ++ jstr kv.1 ++ ": " ++ kv.2)) ++
      "\n" ++ spacesStr ind ++ "\x7d"

/-- serde_json pretty printing of an array of rendered items. -/
def arrayPretty (ind : Nat) (items : List String) : String :=
  match items with
  | [] => "[]"
  | _ =>
    "[\n" ++
      String.intercalate ",\n" (items.map (fun v => spacesStr (ind + 2) ++ v)) ++
      "\n" ++ spacesStr ind ++ "]"

/-- serde_json pretty encoding of `EventTimeSpec` (tag `kind`, snake-case
variant names, fields in declaration order). -/
def timeSpecJsonPretty (ind : Nat) (t : EventTimeSpec) : String :=
  match t with
  | .dateTime s e =>
    objectPretty ind [("kind", jstr "date_time"), ("start", jstr (timestampStr s)),
      ("end", e.elim "null" (fun v => jstr (timestampStr v)))]
  | .date s e =>
    objectPretty ind [("kind", jstr "date"), ("start", jstr (dateStr s)),
      ("end", e.elim "null" (fun v => jstr (dateStr v)))]
  | .month y m =>
    objectPretty ind [("kind", jstr "month"), ("year", toString y), ("month", toString m)]
  | .quarter y q =>
    objectPretty ind [("kind", jstr "quarter"), ("year", toString y), ("quarter", toString q)]
  | .year y => objectPretty ind [("kind", jstr "year"), ("year", toString y)]
  | .tbd n => objectPretty ind [("kind", jstr "tbd"), ("note", jopt n)]

/-- serde_json pretty encoding of one stored `EventRecord`, fields in
declaration order.  The decimal text of an `f32` is abstracted by its bit
pattern (see `CandidateEvent.confidence`); no claim depends on it. -/
def recordPretty (ind : Nat) (r : EventRecord) : String :=
  objectPretty ind
    [("uid", jstr r.uid),
     ("source_key", jstr r.source_key),
     ("source_name", jstr r.source_name),
     ("source_event_id", jopt r.source_event_id),
     ("source_url", jopt r.source_url),
     ("title", jstr r.title),
     ("description", jopt r.description),
     ("time", timeSpecJsonPretty (ind + 2) r.time),
     ("timezone", jopt r.timezone),
     ("status", jstr r.status),
     ("event_type", jstr r.event_type),
     ("subtype", jopt r.subtype),
     ("categories", arrayPretty (ind + 2) (r.categories.map jstr)),
     ("jurisdiction", jopt r.jurisdiction),
     ("country", jopt r.country),
     ("importance", r.importance.elim "null" toString),
     ("confidence", r.confidence.elim "null" toString),
     ("metadata", objectPretty (ind + 2) (r.metadata.map (fun kv => (kv.1, jstr kv.2)))),
     ("sequence", toString r.sequence),
     ("revision_hash", jstr r.revision_hash),
     ("created_at", jstr (timestampStr r.created_at)),
     ("last_modified", jstr (timestampStr r.last_modified)),
     ("last_seen_at", jstr (timestampStr r.last_seen_at))]

/-- The byte content written by `save_state` (`src/store.rs`):
`serde_json::to_string_pretty(state)`, the `events` entries serialized in
their stored (key-sorted) order.  `serde_json` appends nothing after the
closing brace. -/
def save_state_content (s : State) : String :=
  objectPretty 0
    [("schema_version", toString s.schema_version),
     ("events", objectPretty 2 (s.events.map (fun kv => (kv.1, recordPretty 4 kv.2))))]

/-- The order in which `save_state` emits the keys of the `events` mapping:
`save_state_content` serializes the entries of `s.events` front to back. -/
def emittedEventKeys (s : State) : List String := s.events.map Prod.fst

/-! ### The sync loop (`sync_sources`, `src/pipeline.rs`) -/

/-- The slice of a loaded source configuration that `sync_sources` reads. -/
structure SourceCfg where
  key : String
  enabled : Bool
  deriving DecidableEq, Repr

/-- The per-source loop of `sync_sources`.  Fetching and parsing are I/O
performed by `fetch_source_documents` / `parse_source_events`; their
outcomes enter the model as the functions `fetchDocs` and `parseEvents`
(a fetched document is abstracted to its text).  A `?`-propagated error
leaves the loop immediately, exactly as in the Rust code; calendar
rebuilding is file I/O without influence on state or reports and is not
modelled. -/
def syncLoop (fetchDocs : SourceCfg → Except String (List String))
    (parseEvents : SourceCfg → List String → Except String (List CandidateEvent))
    (now : Timestamp) :
    List SourceCfg → State → List SourceRunReport →
    Except String (State × List SourceRunReport)
  | [], st, reports => .ok (st, reports.reverse)
  | src :: rest, st, reports =>
    if src.enabled = false then syncLoop fetchDocs parseEvents now rest st reports
    else
      match fetchDocs src with
      | .error e => .error ("fetch failed for source " ++ src.key ++ ": " ++ e)
      | .ok docs =>
        match parseEvents src docs with
        | .error e => .error ("parse failed for source " ++ src.key ++ ": " ++ e)
        | .ok candidates =>
          let report : SourceRunReport :=
            { source_key := src.key
              pages_fetched := docs.length
              records_parsed := candidates.length }
          let merged := merge_source_events st src.key candidates report now
          syncLoop fetchDocs parseEvents now rest merged.1 (merged.2.1 :: reports)

/-- `sync_sources` from `src/pipeline.rs`, after source filtering: run the
per-source loop over the already-loaded configurations and, on success,
persist the final state (modelled by returning it alongside the reports). -/
def sync_sources (fetchDocs : SourceCfg → Except String (List String))
    (parseEvents : SourceCfg → List String → Except String (List CandidateEvent))
    (sources : List SourceCfg) (state : State) (now : Timestamp) :
    Except String (State × List SourceRunReport) :=
  syncLoop fetchDocs parseEvents now sources state []

/-! ### Spec-side definitions

The following definitions restate, in the words of the specification and
of the claims, what the merge engine is supposed to do; the claim theorems
compare them with the source-translated definitions above. -/

/-- Spec wording of C3's identity string: `source_key ++ "::" ++
source_event_id` when set, else `source_key ++ "::" ++ source_url` when
set, else `source_key ++ "::" ++ lowercased title ++ "::" ++ (year bucket
as decimal, or "undated")`. -/
def identityString_spec (c : CandidateEvent) : String :=
  if h : c.source_event_id.isSome then c.source_key ++ "::" ++ c.source_event_id.get h
  else if h2 : c.source_url.isSome then c.source_key ++ "::" ++ c.source_url.get h2
  else
    c.source_key ++ "::" ++ toLowerString c.title ++ "::" ++
      (match c.time.year_bucket with
       | some y => toString y
       | none => "undated")

/-- Spec wording of C3's UID: the first 24 hex characters of the SHA-256
digest of the identity string, followed by the fixed suffix `@rics.local`. -/
def uid_spec (c : CandidateEvent) : String :=
  String.mk ((hexOfBytes (sha256 (utf8Bytes (identityString_spec c)))).data.take 24) ++
    "@rics.local"

/-- The UIDs computed from a run's candidates (the final contents of the
merge loop's `seen_uids` set). -/
def seenUidsOf (candidates : List CandidateEvent) : Finset String :=
  (candidates.map (fun c => stable_uid (normalizeCandidate c))).toFinset

/-- Claim C2's cancellation condition on a stored record: (a) owned by the
current source, (b) not among this run's candidate UIDs, (c) still future
(Tbd counting as future), (d) not already cancelled (case-insensitively). -/
def sweepCondition (today : NaiveDate) (source_key : String) (seen : Finset String)
    (r : EventRecord) : Prop :=
  r.source_key = source_key ∧ r.uid ∉ seen ∧
    r.is_future_relative_to today = true ∧
    ¬ eqIgnoreAsciiCase r.status "cancelled" = true

instance (today : NaiveDate) (source_key : String) (seen : Finset String)
    (r : EventRecord) : Decidable (sweepCondition today source_key seen r) := by
  unfold sweepCondition
  infer_instance

/-- Claim C2's effect on an auto-cancelled record: status `"cancelled"`,
sequence incremented by one (saturating), both bookkeeping instants struck
to `now`, everything else untouched. -/
def autoCancelled (now : Timestamp) (r : EventRecord) : EventRecord :=
  { r with
    status := "cancelled"
    sequence := min (r.sequence + 1) u32MAX
    last_modified := now
    last_seen_at := now }

/-- Spec wording of claim C1's per-candidate step, organized by the claim's
three sentences (present-and-revised, present-and-identical, absent). -/
def mergeCandidateSpec (now : Timestamp) (acc : MergeAcc) (cand : CandidateEvent) : MergeAcc :=
  let c := { cand with categories := dedupAdj (sortStrings cand.categories) }
  let uid := stable_uid c
  let newHash := revision_hash c
  match getEvent acc.events uid with
  | some stored =>
    if stored.revision_hash = newHash then
      { events := setEvent acc.events uid { stored with last_seen_at := now }
        report := { acc.report with unchanged := acc.report.unchanged + 1 }
        seen_uids := insert uid acc.seen_uids
        changed_years := acc.changed_years }
    else
      let replaced : EventRecord :=
        { uid := uid
          source_key := c.source_key
          source_name := c.source_name
          source_event_id := c.source_event_id
          source_url := c.source_url
          title := c.title
          description := c.description
          time := c.time
          timezone := c.timezone
          status := c.status
          event_type := c.event_type
          subtype := c.subtype
          categories := c.categories
          jurisdiction := c.jurisdiction
          country := c.country
          importance := c.importance
          confidence := c.confidence
          metadata := c.metadata
          sequence := min (stored.sequence + 1) u32MAX
          revision_hash := newHash
          created_at := stored.created_at
          last_modified := now
          last_seen_at := now }
      { events := setEvent acc.events uid replaced
        report := { acc.report with updated := acc.report.updated + 1 }
        seen_uids := insert uid acc.seen_uids
        changed_years :=
          match c.time.year_bucket with
          | some y => insert y acc.changed_years
          | none => acc.changed_years }
  | none =>
    let inserted : EventRecord :=
      { uid := uid
        source_key := c.source_key
        source_name := c.source_name
        source_event_id := c.source_event_id
        source_url := c.source_url
        title := c.title
        description := c.description
        time := c.time
        timezone := c.timezone
        status := c.status
        event_type := c.event_type
        subtype := c.subtype
        categories := c.categories
        jurisdiction := c.jurisdiction
        country := c.country
        importance := c.importance
        confidence := c.confidence
        metadata := c.metadata
        sequence := 0
        revision_hash := newHash
        created_at := now
        last_modified := now
        last_seen_at := now }
    { events := insertEvent acc.events uid inserted
      report := { acc.report with inserted := acc.report.inserted + 1 }
      seen_uids := insert uid acc.seen_uids
      changed_years :=
        match c.time.year_bucket with
        | some y => insert y acc.changed_years
        | none => acc.changed_years }

/-! ### Claim theorems -/

/-- Claim C3: every candidate's UID is a deterministic pure function of its
identity string — `source_key ++ "::" ++ source_event_id` when set, else
`source_key ++ "::" ++ source_url` when set, else `source_key ++ "::" ++
lowercased title ++ "::" ++ (year bucket as decimal, or "undated" exactly
when the time is Tbd)` — and equals the first 24 hex characters of the
SHA-256 digest of that string followed by the fixed suffix `@rics.local`.
`stable_uid` takes only the candidate, so it cannot depend on run time,
candidate ordering, or per-run randomness. -/
theorem C3_stable_uid_is_hash_of_identity :
    (∀ c : CandidateEvent, stable_uid c = uid_spec c) ∧
    (∀ t : EventTimeSpec, t.year_bucket = none ↔ ∃ n, t = .tbd n) := by
  constructor
  · intro c
    unfold stable_uid uid_spec identityString_spec
    cases hid : c.source_event_id with
    | some v => simp [hid]
    | none =>
      cases hurl : c.source_url with
      | some u => simp [hid, hurl]
      | none =>
        cases hyb : c.time.year_bucket <;> simp [hid, hurl, hyb]
  · intro t
    cases t <;> simp [EventTimeSpec.year_bucket]

/-- Claim C1: each candidate of a merge run is processed exactly as the
spec's upsert classification describes: after category sort/dedup, a
present UID with a differing stored hash is replaced by the candidate's
content keeping `created_at`, with saturating sequence bump, both instants
struck to `now`, `updated` incremented and the year bucket recorded; a
present UID with an identical hash only refreshes `last_seen_at` and
increments `unchanged`; an absent UID is inserted with sequence 0, all
three instants at `now`, `inserted` incremented and the year bucket
recorded. -/
theorem C1_merge_upsert_matches_spec (now : Timestamp) (acc : MergeAcc)
    (cand : CandidateEvent) :
    mergeCandidate now acc cand = mergeCandidateSpec now acc cand := by
  unfold mergeCandidate mergeCandidateSpec normalizeCandidate
  cases h : getEvent acc.events
      (stable_uid { cand with categories := dedupAdj (sortStrings cand.categories) }) with
  | none =>
    cases hyb : ({ cand with categories := dedupAdj (sortStrings cand.categories) } :
        CandidateEvent).time.year_bucket <;>
      simp [h, hyb, candidate_to_record, EventRecord.year_bucket, satAdd32]
  | some stored =>
    by_cases hr : stored.revision_hash =
        revision_hash { cand with categories := dedupAdj (sortStrings cand.categories) }
    · simp [h, hr]
    · cases hyb : ({ cand with categories := dedupAdj (sortStrings cand.categories) } :
          CandidateEvent).time.year_bucket <;>
        simp [h, hr, hyb, candidate_to_record, EventRecord.year_bucket, satAdd32]

/-- Claim C7 (the slip, evaluated): folding a 150-byte logical line yields
a 75-byte first line and a 76-byte continuation — the continuation's
leading fold space is not counted against the 75-byte limit, so the
emitted physical line exceeds 75 bytes. -/
theorem C7_fold_line_emits_76_byte_line :
    (fold_line (String.mk (List.replicate 150 'A'))).map String.utf8ByteSize = [75, 76] := by
  decide

/-- The cancellation sweep, characterized declaratively: it maps every
entry through cancel-if-condition, adds the number of hits to the
`cancelled` counter, and unions the hit records' year buckets into
`changed_years`. -/
theorem sweepEvents_spec_eq (now : Timestamp) (today : NaiveDate) (key : String)
    (seen : Finset String) :
    ∀ (entries : List (String × EventRecord)) (rep : SourceRunReport) (years : Finset Int),
    sweepEvents now today key seen entries rep years =
      (entries.map (fun kv =>
         if sweepCondition today key seen kv.2 then (kv.1, autoCancelled now kv.2) else kv),
       { rep with cancelled := rep.cancelled +
           entries.countP (fun kv => decide (sweepCondition today key seen kv.2)) },
       years ∪ (entries.filterMap (fun kv =>
           if sweepCondition today key seen kv.2 then kv.2.year_bucket else none)).toFinset) := by
  intro entries
  induction entries with
  | nil => intro rep years; simp [sweepEvents]
  | cons kv rest ih =>
    intro rep years
    obtain ⟨k, event⟩ := kv
    by_cases hc : sweepCondition today key seen event
    · have hcu := hc
      unfold sweepCondition at hcu
      simp only [sweepEvents, if_pos hcu, ih]
      refine Prod.ext ?_ (Prod.ext ?_ ?_)
      · simp [hc, autoCancelled, satAdd32]
      · simp [hc, List.countP_cons, Nat.add_assoc, Nat.add_comm 1]
      · cases hyb : event.year_bucket with
        | none =>
          simp [hc, EventRecord.year_bucket] at hyb ⊢
          simp [hyb]
        | some y =>
          simp [hc, EventRecord.year_bucket] at hyb ⊢
          simp [hc, hyb, List.filterMap_cons, Finset.union_insert]
    · have hcu : ¬ (event.source_key = key ∧ event.uid ∉ seen ∧
          event.is_future_relative_to today = true ∧
          ¬ eqIgnoreAsciiCase event.status "cancelled" = true) := hc
      simp only [sweepEvents, if_neg hcu, ih]
      refine Prod.ext ?_ (Prod.ext ?_ ?_)
      · simp [hc]
      · simp [hc, List.countP_cons]
      · simp [hc]

/-- The merge loop's `seen_uids` set is exactly the UIDs computed from the
run's candidates, unioned into whatever the accumulator started with. -/
theorem foldl_merge_seen (now : Timestamp) :
    ∀ (cands : List CandidateEvent) (acc : MergeAcc),
    (cands.foldl (mergeCandidate now) acc).seen_uids = acc.seen_uids ∪ seenUidsOf cands := by
  intro cands
  induction cands with
  | nil => intro acc; simp [seenUidsOf]
  | cons c cs ih =>
    intro acc
    have hstep : (mergeCandidate now acc c).seen_uids =
        insert (stable_uid (normalizeCandidate c)) acc.seen_uids := by
      unfold mergeCandidate normalizeCandidate
      cases h : getEvent acc.events
          (stable_uid { c with categories := dedupAdj (sortStrings c.categories) }) with
      | none => simp [h]
      | some stored =>
        by_cases hr : stored.revision_hash =
            revision_hash { c with categories := dedupAdj (sortStrings c.categories) } <;>
          simp [h, hr]
    simp only [List.foldl_cons, ih, hstep, seenUidsOf, List.map_cons, List.toFinset_cons]
    rw [Finset.insert_union, Finset.union_insert]

/-- Claim C2: the cancellation sweep auto-cancels exactly the records that
(a) belong to the current source, (b) have a UID not among the UIDs
computed from this run's candidates (the loop's `seen_uids`), (c) are still
future relative to today (Tbd counting as future) and (d) are not already
cancelled case-insensitively; each hit gets status `"cancelled"`, a
saturating sequence bump, both instants struck to `now`, one `cancelled`
count and its year bucket (when present) added to `changed_years`; every
other record is left untouched by the sweep. -/
theorem C2_cancellation_sweep_characterized :
    (∀ (now : Timestamp) (today : NaiveDate) (key : String) (seen : Finset String)
       (entries : List (String × EventRecord)) (rep : SourceRunReport) (years : Finset Int),
      sweepEvents now today key seen entries rep years =
        (entries.map (fun kv =>
           if sweepCondition today key seen kv.2 then (kv.1, autoCancelled now kv.2) else kv),
         { rep with cancelled := rep.cancelled +
             entries.countP (fun kv => decide (sweepCondition today key seen kv.2)) },
         years ∪ (entries.filterMap (fun kv =>
             if sweepCondition today key seen kv.2 then kv.2.year_bucket else none)).toFinset)) ∧
    (∀ (now : Timestamp) (cands : List CandidateEvent) (acc : MergeAcc),
      (cands.foldl (mergeCandidate now) acc).seen_uids = acc.seen_uids ∪ seenUidsOf cands) :=
  ⟨fun now today key seen => sweepEvents_spec_eq now today key seen,
   fun now => foldl_merge_seen now⟩

/-- Lookup after overwriting a key in place. -/
theorem getEvent_setEvent (es : List (String × EventRecord)) (k u : String) (v : EventRecord) :
    getEvent (setEvent es k v) u =
      if k = u then (getEvent es u).map (fun _ => v) else getEvent es u := by
  induction es with
  | nil => simp [setEvent, getEvent]
  | cons kv rest ih =>
    obtain ⟨k', v'⟩ := kv
    by_cases h1 : k' = k
    · subst h1
      by_cases h2 : k' = u <;> simp [setEvent, getEvent, h2]
    · by_cases h2 : k' = u
      · subst h2
        have h3 : ¬ k = k' := fun hh => h1 hh.symm
        simp [setEvent, getEvent, h1, h3]
      · simp [setEvent, getEvent, h1, h2, ih]

/-- Lookup after a sorted-position insert. -/
theorem getEvent_insertEvent (es : List (String × EventRecord)) (k u : String) (v : EventRecord) :
    getEvent (insertEvent es k v) u = if k = u then some v else getEvent es u := by
  induction es with
  | nil => simp [insertEvent, getEvent]
  | cons kv rest ih =>
    obtain ⟨k', v'⟩ := kv
    by_cases h1 : k < k'
    · simp [insertEvent, getEvent, h1]
    · by_cases h2 : k = k'
      · subst h2
        by_cases h3 : k = u <;> simp [insertEvent, getEvent, h1, h3]
      · by_cases h3 : k' = u
        · subst h3
          have h4 : ¬ k = k' := h2
          simp [insertEvent, getEvent, h1, h2, h4, ih]
        · simp [insertEvent, getEvent, h1, h2, h3, ih]

/-- Lookup through a value-only map over the entries. -/
theorem getEvent_mapVal (g : EventRecord → EventRecord) :
    ∀ (es : List (String × EventRecord)) (u : String),
    getEvent (es.map (fun kv => (kv.1, g kv.2))) u = (getEvent es u).map g := by
  intro es
  induction es with
  | nil => simp [getEvent]
  | cons kv rest ih =>
    intro u
    obtain ⟨k, v⟩ := kv
    by_cases h : k = u <;> simp [getEvent, h, ih]

/-- The per-record effect of the sweep: cancel when the condition holds,
otherwise leave the record alone. -/
def sweepValue (now : Timestamp) (today : NaiveDate) (key : String)
    (seen : Finset String) (r : EventRecord) : EventRecord :=
  if sweepCondition today key seen r then autoCancelled now r else r

/-- The entry list produced by the sweep, as a value-only map. -/
theorem sweepEvents_fst (now : Timestamp) (today : NaiveDate) (key : String)
    (seen : Finset String) (entries : List (String × EventRecord))
    (rep : SourceRunReport) (years : Finset Int) :
    (sweepEvents now today key seen entries rep years).1 =
      entries.map (fun kv => (kv.1, sweepValue now today key seen kv.2)) := by
  rw [sweepEvents_spec_eq]
  refine List.map_congr_left ?_
  intro kv _
  by_cases hc : sweepCondition today key seen kv.2 <;> simp [sweepValue, hc]

/-- A candidate whose (normalized) UID differs from `u` leaves the record
stored at `u` untouched. -/
theorem mergeCandidate_events_frame (now : Timestamp) (acc : MergeAcc) (c : CandidateEvent)
    (u : String) (h : u ≠ stable_uid (normalizeCandidate c)) :
    getEvent (mergeCandidate now acc c).events u = getEvent acc.events u := by
  unfold normalizeCandidate at h
  have h' : ¬ stable_uid { c with categories := dedupAdj (sortStrings c.categories) } = u :=
    fun hh => h hh.symm
  unfold mergeCandidate normalizeCandidate
  cases hget : getEvent acc.events
      (stable_uid { c with categories := dedupAdj (sortStrings c.categories) }) with
  | none => simp [hget, getEvent_insertEvent, h']
  | some stored =>
    by_cases hr : stored.revision_hash =
        revision_hash { c with categories := dedupAdj (sortStrings c.categories) } <;>
      simp [hget, hr, getEvent_setEvent, h']

/-- The upsert loop never drops a stored key. -/
theorem mergeCandidate_preserves_mem (now : Timestamp) (acc : MergeAcc) (c : CandidateEvent)
    (u : String) (h : (getEvent acc.events u).isSome = true) :
    (getEvent (mergeCandidate now acc c).events u).isSome = true := by
  by_cases he : u = stable_uid (normalizeCandidate c)
  · subst he
    unfold mergeCandidate normalizeCandidate
    cases hget : getEvent acc.events
        (stable_uid { c with categories := dedupAdj (sortStrings c.categories) }) with
    | none => simp [hget, getEvent_insertEvent]
    | some stored =>
      by_cases hr : stored.revision_hash =
          revision_hash { c with categories := dedupAdj (sortStrings c.categories) } <;>
        simp [hget, hr, getEvent_setEvent]
  · rw [mergeCandidate_events_frame now acc c u he]
    exact h

/-- Key preservation through the whole upsert loop. -/
theorem foldl_merge_preserves_mem (now : Timestamp) :
    ∀ (cands : List CandidateEvent) (acc : MergeAcc) (u : String),
    (getEvent acc.events u).isSome = true →
    (getEvent ((cands.foldl (mergeCandidate now) acc).events) u).isSome = true := by
  intro cands
  induction cands with
  | nil => intro acc u h; exact h
  | cons c cs ih =>
    intro acc u h
    exact ih (mergeCandidate now acc c) u (mergeCandidate_preserves_mem now acc c u h)

/-- Records at keys outside the run's candidate UIDs pass through the
upsert loop unchanged. -/
theorem foldl_merge_frame (now : Timestamp) :
    ∀ (cands : List CandidateEvent) (acc : MergeAcc) (u : String),
    u ∉ seenUidsOf cands →
    getEvent ((cands.foldl (mergeCandidate now) acc).events) u = getEvent acc.events u := by
  intro cands
  induction cands with
  | nil => intro acc u _; rfl
  | cons c cs ih =>
    intro acc u h
    have h1 : u ≠ stable_uid (normalizeCandidate c) := by
      intro hh
      exact h (by simp [seenUidsOf, hh])
    have h2 : u ∉ seenUidsOf cs := by
      intro hh
      exact h (by simp [seenUidsOf] at hh ⊢; exact Or.inr hh)
    rw [List.foldl_cons, ih (mergeCandidate now acc c) u h2,
      mergeCandidate_events_frame now acc c u h1]

/-- Claim C9: a merge run never removes a UID from state — every key
present before `merge_source_events` is still present afterwards; records
are only inserted or modified in place. -/
theorem C9_merge_never_removes_uids (state : State) (key : String)
    (cands : List CandidateEvent) (rep : SourceRunReport) (now : Timestamp)
    (u : String) (r : EventRecord) (h : getEvent state.events u = some r) :
    ∃ r', getEvent ((merge_source_events state key cands rep now).1.events) u = some r' := by
  simp only [merge_source_events]
  rw [sweepEvents_fst, getEvent_mapVal]
  have hmem : (getEvent state.events u).isSome = true := by rw [h]; rfl
  have hafter := foldl_merge_preserves_mem now cands ⟨state.events, rep, ∅, ∅⟩ u hmem
  obtain ⟨r', hr'⟩ := Option.isSome_iff_exists.mp hafter
  exact ⟨_, by rw [hr']; rfl⟩

/-- Claim C10: a merge run for one source leaves every record of every
other source untouched — a stored record whose `source_key` differs from
the current source's key and whose key is not among the UIDs computed from
this run's candidates is bitwise identical before and after
`merge_source_events`. -/
theorem C10_merge_frames_other_sources (state : State) (key : String)
    (cands : List CandidateEvent) (rep : SourceRunReport) (now : Timestamp)
    (u : String) (r : EventRecord) (h : getEvent state.events u = some r)
    (hsk : r.source_key ≠ key) (hseen : u ∉ seenUidsOf cands) :
    getEvent ((merge_source_events state key cands rep now).1.events) u = some r := by
  simp only [merge_source_events]
  rw [sweepEvents_fst, getEvent_mapVal,
    foldl_merge_frame now cands ⟨state.events, rep, ∅, ∅⟩ u hseen, h]
  have hcond : ¬ sweepCondition now.date_naive key
      ((cands.foldl (mergeCandidate now) ⟨state.events, rep, ∅, ∅⟩).seen_uids) r := by
    intro hc
    exact hsk hc.1
  simp [sweepValue, hcond]

/-- The invariant behind claim C5: relative to an original record `r` and
the run instant `now`, the record now stored at `r`'s key either still has
`r`'s `last_modified` and `sequence`, or has `last_modified = now` together
with a strictly larger (still `u32`-bounded) sequence. -/
def C5inv (now : Timestamp) (r r' : EventRecord) : Prop :=
  (r'.last_modified = r.last_modified ∧ r'.sequence = r.sequence) ∨
    (r'.last_modified = now ∧ r.sequence < r'.sequence ∧ r'.sequence ≤ u32MAX)

/-- One upsert step preserves the C5 invariant (for an original sequence
strictly below `u32::MAX`). -/
theorem mergeCandidate_C5_step (now : Timestamp) (r : EventRecord) (acc : MergeAcc)
    (c : CandidateEvent) (u : String)
    (hinv : ∃ r', getEvent acc.events u = some r' ∧ C5inv now r r')
    (hmax : r.sequence < u32MAX) :
    ∃ r', getEvent (mergeCandidate now acc c).events u = some r' ∧ C5inv now r r' := by
  obtain ⟨r', hget, hI⟩ := hinv
  by_cases he : u = stable_uid (normalizeCandidate c)
  · subst he
    unfold normalizeCandidate at hget
    unfold mergeCandidate normalizeCandidate
    simp only [hget]
    by_cases hr : r'.revision_hash =
        revision_hash { c with categories := dedupAdj (sortStrings c.categories) }
    · refine ⟨{ r' with last_seen_at := now }, ?_, ?_⟩
      · simp [hr, getEvent_setEvent, hget]
      · rcases hI with ⟨h1, h2⟩ | ⟨h1, h2, h3⟩
        · exact Or.inl ⟨h1, h2⟩
        · exact Or.inr ⟨h1, h2, h3⟩
    · refine ⟨candidate_to_record { c with categories := dedupAdj (sortStrings c.categories) }
          (stable_uid { c with categories := dedupAdj (sortStrings c.categories) })
          (revision_hash { c with categories := dedupAdj (sortStrings c.categories) })
          (satAdd32 r'.sequence 1) r'.created_at now, ?_, ?_⟩
      · simp [hr, getEvent_setEvent, hget]
      · refine Or.inr ⟨by simp [candidate_to_record], ?_, ?_⟩
        · simp only [candidate_to_record, satAdd32, u32MAX] at *
          rcases hI with ⟨_, h2⟩ | ⟨_, h2, h3⟩ <;> omega
        · simp only [candidate_to_record, satAdd32, u32MAX] at *
          omega
  · rw [mergeCandidate_events_frame now acc c u he]
    exact ⟨r', hget, hI⟩

/-- The whole upsert loop preserves the C5 invariant. -/
theorem foldl_merge_C5 (now : Timestamp) (r : EventRecord) :
    ∀ (cands : List CandidateEvent) (acc : MergeAcc) (u : String),
    (∃ r', getEvent acc.events u = some r' ∧ C5inv now r r') →
    r.sequence < u32MAX →
    ∃ r', getEvent ((cands.foldl (mergeCandidate now) acc).events) u = some r' ∧
      C5inv now r r' := by
  intro cands
  induction cands with
  | nil => intro acc u h _; exact h
  | cons c cs ih =>
    intro acc u h hmax
    exact ih (mergeCandidate now acc c) u (mergeCandidate_C5_step now r acc c u h hmax) hmax

/-- The sweep's per-record effect preserves the C5 invariant. -/
theorem sweepValue_C5 (now : Timestamp) (today : NaiveDate) (key : String)
    (seen : Finset String) (r r' : EventRecord)
    (hI : C5inv now r r') (hmax : r.sequence < u32MAX) :
    C5inv now r (sweepValue now today key seen r') := by
  unfold sweepValue
  by_cases hc : sweepCondition today key seen r'
  · rw [if_pos hc]
    refine Or.inr ⟨rfl, ?_, ?_⟩
    · simp only [autoCancelled, u32MAX] at *
      rcases hI with ⟨_, h2⟩ | ⟨_, h2, h3⟩ <;> omega
    · simp only [autoCancelled, u32MAX] at *
      omega
  · rw [if_neg hc]
    exact hI

/-- Claim C5, amended: for a stored record whose sequence is strictly below
`u32::MAX` and whose `last_modified` differs from the run instant `now`,
one merge run changes `last_modified` iff it changes `sequence`. -/
theorem C5_lm_changes_iff_seq_changes_below_max (state : State) (key : String)
    (cands : List CandidateEvent) (rep : SourceRunReport) (now : Timestamp)
    (u : String) (r : EventRecord)
    (h : getEvent state.events u = some r)
    (hlm : r.last_modified ≠ now)
    (hmax : r.sequence < u32MAX) :
    ∃ r', getEvent ((merge_source_events state key cands rep now).1.events) u = some r' ∧
      ((r'.last_modified ≠ r.last_modified) ↔ (r'.sequence ≠ r.sequence)) := by
  simp only [merge_source_events]
  rw [sweepEvents_fst, getEvent_mapVal]
  have h1 := foldl_merge_C5 now r cands ⟨state.events, rep, ∅, ∅⟩ u
    ⟨r, h, Or.inl ⟨rfl, rfl⟩⟩ hmax
  obtain ⟨r', hget, hI⟩ := h1
  rw [hget]
  have h28 := sweepValue_C5 now now.date_naive key
    ((cands.foldl (mergeCandidate now) ⟨state.events, rep, ∅, ∅⟩).seen_uids) r r' hI hmax
  refine ⟨_, rfl, ?_⟩
  rcases h28 with ⟨h1', h2'⟩ | ⟨h1', h2', _⟩
  · constructor
    · intro hx; exact absurd h1' hx
    · intro hx; exact absurd h2' hx
  · constructor
    · intro _; omega
    · intro _; rw [h1']; exact fun hh => hlm hh.symm

/-- Run instant used in the C5 concrete scenarios. -/
def tRun : Timestamp := ⟨⟨2026, 1, 2⟩, 0⟩

/-- Earlier instant used as the stored bookkeeping timestamps. -/
def tOld : Timestamp := ⟨⟨2025, 1, 1⟩, 0⟩

/-- A stored future record of source `s` whose sequence is already pinned
at `u32::MAX`. -/
def recAtMax : EventRecord :=
  { uid := "u1", source_key := "s", source_name := "S", source_event_id := none,
    source_url := none, title := "t", description := none, time := .year 2100,
    timezone := none, status := "scheduled", event_type := "release", subtype := none,
    categories := [], jurisdiction := none, country := none, importance := none,
    confidence := none, metadata := [], sequence := 4294967295, revision_hash := "h0",
    created_at := tOld, last_modified := tOld, last_seen_at := tOld }

/-- Claim C5, refuted as stated: merging an empty candidate list for source
`s` auto-cancels the stored future record whose sequence is already
`u32::MAX`; its `last_modified` changes to `now` while its saturating
sequence stays pinned — `last_modified` changes without `sequence`
changing. -/
theorem C5_counterexample_at_u32MAX :
    getEvent ((merge_source_events ⟨1, [("u1", recAtMax)]⟩ "s" []
        ⟨"s", 0, 0, 0, 0, 0, 0⟩ tRun).1.events) "u1" =
      some (autoCancelled tRun recAtMax) ∧
    (autoCancelled tRun recAtMax).last_modified ≠ recAtMax.last_modified ∧
    (autoCancelled tRun recAtMax).sequence = recAtMax.sequence := by
  refine ⟨by decide, by decide, by decide⟩

/-- A stored record of another source, sequence below `u32::MAX`. -/
def recOtherSrc : EventRecord :=
  { recAtMax with uid := "u2", source_key := "other", sequence := 3 }

/-- Witness for the amended C5 at a concrete input: the hypotheses hold and
the equivalence follows by the theorem. -/
theorem C5_witness :
    getEvent [("u2", recOtherSrc)] "u2" = some recOtherSrc ∧
    recOtherSrc.last_modified ≠ tRun ∧
    recOtherSrc.sequence < u32MAX ∧
    (∃ r', getEvent ((merge_source_events ⟨1, [("u2", recOtherSrc)]⟩ "s" []
        ⟨"s", 0, 0, 0, 0, 0, 0⟩ tRun).1.events) "u2" = some r' ∧
      ((r'.last_modified ≠ recOtherSrc.last_modified) ↔
        (r'.sequence ≠ recOtherSrc.sequence))) :=
  ⟨by decide, by decide, by decide,
    C5_lm_changes_iff_seq_changes_below_max ⟨1, [("u2", recOtherSrc)]⟩ "s" []
      ⟨"s", 0, 0, 0, 0, 0, 0⟩ tRun "u2" recOtherSrc (by decide) (by decide) (by decide)⟩

/-- Witness for C9 at a concrete input. -/
theorem C9_witness :
    getEvent [("u1", recAtMax)] "u1" = some recAtMax ∧
    (∃ r', getEvent ((merge_source_events ⟨1, [("u1", recAtMax)]⟩ "s" []
        ⟨"s", 0, 0, 0, 0, 0, 0⟩ tRun).1.events) "u1" = some r') :=
  ⟨by decide, C9_merge_never_removes_uids ⟨1, [("u1", recAtMax)]⟩ "s" []
    ⟨"s", 0, 0, 0, 0, 0, 0⟩ tRun "u1" recAtMax (by decide)⟩

/-- Witness for C10 at a concrete input. -/
theorem C10_witness :
    getEvent [("u2", recOtherSrc)] "u2" = some recOtherSrc ∧
    recOtherSrc.source_key ≠ "s" ∧
    "u2" ∉ seenUidsOf [] ∧
    getEvent ((merge_source_events ⟨1, [("u2", recOtherSrc)]⟩ "s" []
        ⟨"s", 0, 0, 0, 0, 0, 0⟩ tRun).1.events) "u2" = some recOtherSrc :=
  ⟨by decide, by decide, by decide,
    C10_merge_frames_other_sources ⟨1, [("u2", recOtherSrc)]⟩ "s" []
      ⟨"s", 0, 0, 0, 0, 0, 0⟩ tRun "u2" recOtherSrc (by decide) (by decide) (by decide)⟩

/-- Hash congruence: equal revision material gives an equal revision hash. -/
theorem revision_hash_eq_of_material_eq (c₁ c₂ : CandidateEvent)
    (h : revisionMaterialOf c₁ = revisionMaterialOf c₂) :
    revision_hash c₁ = revision_hash c₂ := by
  unfold revision_hash
  rw [h]

/-- UID congruence between normalized candidates that agree on all
identity-relevant fields. -/
theorem stable_uid_norm_congr (c₁ c₂ : CandidateEvent)
    (hsk : c₁.source_key = c₂.source_key) (hid : c₁.source_event_id = c₂.source_event_id)
    (hurl : c₁.source_url = c₂.source_url) (ht : c₁.title = c₂.title)
    (htime : c₁.time = c₂.time) :
    stable_uid (normalizeCandidate c₁) = stable_uid (normalizeCandidate c₂) := by
  unfold stable_uid normalizeCandidate
  simp [hsk, hid, hurl, ht, htime]

/-- Claim C4: two candidates agreeing on `source_key`, `source_event_id`,
`source_url`, `title`, `description`, `time`, `status`, `event_type`,
`subtype`, `categories` (in stored order) and `metadata` — but differing
arbitrarily in `source_name`, `timezone`, `importance`, `confidence`,
`jurisdiction` or `country` — get an identical `revision_hash`;
consequently re-merging the mutated candidate over the record stored from
the original candidate is classified `unchanged`, not `updated`. -/
theorem C4_revision_orthogonality (c₁ c₂ : CandidateEvent)
    (hsk : c₁.source_key = c₂.source_key) (hid : c₁.source_event_id = c₂.source_event_id)
    (hurl : c₁.source_url = c₂.source_url) (ht : c₁.title = c₂.title)
    (hd : c₁.description = c₂.description) (htime : c₁.time = c₂.time)
    (hst : c₁.status = c₂.status) (het : c₁.event_type = c₂.event_type)
    (hsub : c₁.subtype = c₂.subtype) (hcat : c₁.categories = c₂.categories)
    (hmeta : c₁.metadata = c₂.metadata) :
    revision_hash c₁ = revision_hash c₂ ∧
    ∀ (st : State) (key : String) (rep : SourceRunReport) (now now₀ created : Timestamp)
      (seq : Nat),
      getEvent st.events (stable_uid (normalizeCandidate c₂)) =
        some (candidate_to_record (normalizeCandidate c₁)
          (stable_uid (normalizeCandidate c₁)) (revision_hash (normalizeCandidate c₁))
          seq created now₀) →
      ((merge_source_events st key [c₂] rep now).2.1.unchanged = rep.unchanged + 1 ∧
       (merge_source_events st key [c₂] rep now).2.1.updated = rep.updated) := by
  have hmat : revisionMaterialOf c₁ = revisionMaterialOf c₂ := by
    simp [revisionMaterialOf, hsk, hid, hurl, ht, hd, htime, hst, het, hsub, hcat, hmeta]
  have hmatn : revisionMaterialOf (normalizeCandidate c₁) =
      revisionMaterialOf (normalizeCandidate c₂) := by
    simp [revisionMaterialOf, normalizeCandidate,
      hsk, hid, hurl, ht, hd, htime, hst, het, hsub, hcat, hmeta]
  have hhash : revision_hash (normalizeCandidate c₁) = revision_hash (normalizeCandidate c₂) :=
    revision_hash_eq_of_material_eq _ _ hmatn
  refine ⟨revision_hash_eq_of_material_eq c₁ c₂ hmat, ?_⟩
  intro st key rep now now₀ created seq hstored
  simp only [merge_source_events, List.foldl_cons, List.foldl_nil]
  unfold normalizeCandidate at hstored
  have hrec : (candidate_to_record { c₁ with categories := dedupAdj (sortStrings c₁.categories) }
      (stable_uid { c₁ with categories := dedupAdj (sortStrings c₁.categories) })
      (revision_hash { c₁ with categories := dedupAdj (sortStrings c₁.categories) })
      seq created now₀).revision_hash =
      revision_hash { c₂ with categories := dedupAdj (sortStrings c₂.categories) } := hhash
  unfold mergeCandidate normalizeCandidate
  simp only [hstored]
  rw [if_neg (by simp [hrec])]
  rw [sweepEvents_spec_eq]
  constructor <;> rfl

/-- First concrete candidate for the C4 scenario. -/
def cW1 : CandidateEvent :=
  { source_key := "s", source_name := "Name A", source_event_id := some "e1",
    source_url := none, title := "T", description := none, time := .year 2030,
    timezone := none, status := "scheduled", event_type := "release", subtype := none,
    categories := ["x"], jurisdiction := none, country := none, importance := some 1,
    confidence := none, metadata := [] }

/-- The same candidate with only revision-excluded fields mutated. -/
def cW2 : CandidateEvent :=
  { cW1 with source_name := "Name B", timezone := some "UTC", importance := none }

/-- The record stored by a previous run that merged `cW1`. -/
def recW4 : EventRecord :=
  candidate_to_record (normalizeCandidate cW1) (stable_uid (normalizeCandidate cW1))
    (revision_hash (normalizeCandidate cW1)) 0 tOld tOld

/-- State holding `recW4` under its UID. -/
def stW4 : State := ⟨1, [(stable_uid (normalizeCandidate cW1), recW4)]⟩

/-- Report at the start of the C4 re-sync run. -/
def repW4 : SourceRunReport := ⟨"s", 0, 0, 0, 0, 0, 0⟩

/-- Witness for C4 at a concrete input: the two candidates agree on all
revision material, differ in an excluded field, and the re-sync counts one
`unchanged` and no `updated`. -/
theorem C4_witness :
    cW1.source_key = cW2.source_key ∧ cW1.source_event_id = cW2.source_event_id ∧
    cW1.source_url = cW2.source_url ∧ cW1.title = cW2.title ∧
    cW1.description = cW2.description ∧ cW1.time = cW2.time ∧
    cW1.status = cW2.status ∧ cW1.event_type = cW2.event_type ∧
    cW1.subtype = cW2.subtype ∧ cW1.categories = cW2.categories ∧
    cW1.metadata = cW2.metadata ∧
    cW1.source_name ≠ cW2.source_name ∧
    getEvent stW4.events (stable_uid (normalizeCandidate cW2)) = some recW4 ∧
    revision_hash cW1 = revision_hash cW2 ∧
    (merge_source_events stW4 "s" [cW2] repW4 tRun).2.1.unchanged = repW4.unchanged + 1 ∧
    (merge_source_events stW4 "s" [cW2] repW4 tRun).2.1.updated = repW4.updated := by
  have hlookup : getEvent stW4.events (stable_uid (normalizeCandidate cW2)) = some recW4 := by
    rw [stable_uid_norm_congr cW2 cW1 rfl rfl rfl rfl rfl]
    simp [stW4, getEvent]
  have hmain := C4_revision_orthogonality cW1 cW2 rfl rfl rfl rfl rfl rfl rfl rfl rfl rfl rfl
  exact ⟨rfl, rfl, rfl, rfl, rfl, rfl, rfl, rfl, rfl, rfl, rfl, by decide, hlookup, hmain.1,
    (hmain.2 stW4 "s" repW4 tRun tOld tOld 0 hlookup).1,
    (hmain.2 stW4 "s" repW4 tRun tOld tOld 0 hlookup).2⟩

/-- The sync loop aborts with an error as soon as an enabled source's fetch
or parse fails, whatever sources remain and whatever reports were already
accumulated. -/
theorem syncLoop_error_of_bad_source
    (fetchDocs : SourceCfg → Except String (List String))
    (parseEvents : SourceCfg → List String → Except String (List CandidateEvent))
    (now : Timestamp) (bad : SourceCfg) (rest : List SourceCfg) (e : String)
    (hbad : bad.enabled = true)
    (hfail : fetchDocs bad = .error e ∨
      ∃ d, fetchDocs bad = .ok d ∧ parseEvents bad d = .error e) :
    ∀ (pre : List SourceCfg),
    (∀ s ∈ pre, s.enabled = true →
      ∃ d c, fetchDocs s = .ok d ∧ parseEvents s d = .ok c) →
    ∀ (st : State) (reports : List SourceRunReport),
    ∃ msg, syncLoop fetchDocs parseEvents now (pre ++ bad :: rest) st reports = .error msg := by
  intro pre
  induction pre with
  | nil =>
    intro _ st reports
    rcases hfail with hf | ⟨d, hok, hperr⟩
    · refine ⟨"fetch failed for source " ++ bad.key ++ ": " ++ e, ?_⟩
      simp [syncLoop, hbad, hf]
    · refine ⟨"parse failed for source " ++ bad.key ++ ": " ++ e, ?_⟩
      simp [syncLoop, hbad, hok, hperr]
  | cons s pre ih =>
    intro hpre st reports
    cases hsen : s.enabled with
    | false =>
      have hrec := ih (fun x hx hex => hpre x (List.mem_cons_of_mem s hx) hex) st reports
      simpa [syncLoop, hsen] using hrec
    | true =>
      obtain ⟨d, c, hok, hpok⟩ := hpre s (List.mem_cons_self s pre) hsen
      have hrec := ih (fun x hx hex => hpre x (List.mem_cons_of_mem s hx) hex)
        (merge_source_events st s.key c
          ⟨s.key, d.length, c.length, 0, 0, 0, 0⟩ now).1
        ((merge_source_events st s.key c
          ⟨s.key, d.length, c.length, 0, 0, 0, 0⟩ now).2.1 :: reports)
      simpa [syncLoop, hsen, hok, hpok] using hrec

/-- Claim C6, amended: a fetch or parse failure for one enabled source
terminates the whole sync run with that error — later sources are not
processed and no final state is produced for persistence. -/
theorem C6_source_error_aborts_run
    (fetchDocs : SourceCfg → Except String (List String))
    (parseEvents : SourceCfg → List String → Except String (List CandidateEvent))
    (now : Timestamp) (bad : SourceCfg) (rest pre : List SourceCfg) (e : String)
    (st : State)
    (hbad : bad.enabled = true)
    (hfail : fetchDocs bad = .error e ∨
      ∃ d, fetchDocs bad = .ok d ∧ parseEvents bad d = .error e)
    (hpre : ∀ s ∈ pre, s.enabled = true →
      ∃ d c, fetchDocs s = .ok d ∧ parseEvents s d = .ok c) :
    ∃ msg, sync_sources fetchDocs parseEvents (pre ++ bad :: rest) st now = .error msg :=
  syncLoop_error_of_bad_source fetchDocs parseEvents now bad rest e hbad hfail pre hpre st []

/-- First configured source of the C6 scenario (its fetch fails). -/
def srcA : SourceCfg := ⟨"a", true⟩

/-- Second configured source of the C6 scenario (would succeed). -/
def srcB : SourceCfg := ⟨"b", true⟩

/-- Fetch outcomes of the C6 scenario: source `a` fails, everything else
succeeds with no documents. -/
def fetchW : SourceCfg → Except String (List String) :=
  fun s => if s.key = "a" then .error "io" else .ok []

/-- Parse outcomes of the C6 scenario: always zero candidates. -/
def parseW : SourceCfg → List String → Except String (List CandidateEvent) :=
  fun _ _ => .ok []

/-- Claim C6, refuted as stated: with two enabled sources where the first
one's fetch fails, the whole run returns that error — the second source is
never processed and no state is returned for persistence, where the claim
expects the failing source to be skipped and the run to continue. -/
theorem C6_counterexample_run_aborts :
    sync_sources fetchW parseW [srcA, srcB] ⟨1, []⟩ tRun =
      .error "fetch failed for source a: io" := by
  rfl

/-- Witness for the amended C6 at a concrete input. -/
theorem C6_witness :
    srcA.enabled = true ∧
    fetchW srcA = .error "io" ∧
    (∀ s ∈ ([] : List SourceCfg), s.enabled = true →
      ∃ d c, fetchW s = .ok d ∧ parseW s d = .ok c) ∧
    ∃ msg, sync_sources fetchW parseW ([] ++ srcA :: [srcB]) ⟨1, []⟩ tRun = .error msg :=
  ⟨rfl, rfl, by simp,
    C6_source_error_aborts_run fetchW parseW tRun srcA [srcB] [] "io" ⟨1, []⟩ rfl
      (Or.inl rfl) (by simp)⟩

/-- Overwriting a value in place never changes the key list. -/
theorem setEvent_keys (es : List (String × EventRecord)) (k : String) (v : EventRecord) :
    (setEvent es k v).map Prod.fst = es.map Prod.fst := by
  induction es with
  | nil => rfl
  | cons kv rest ih =>
    obtain ⟨k', v'⟩ := kv
    by_cases h : k' = k <;> simp [setEvent, h, ih]

/-- Every key of `insertEvent es k v` is `k` or a key of `es`. -/
theorem insertEvent_keys_sub (k : String) (v : EventRecord) :
    ∀ (es : List (String × EventRecord)) (x : String),
    x ∈ (insertEvent es k v).map Prod.fst → x = k ∨ x ∈ es.map Prod.fst := by
  intro es
  induction es with
  | nil =>
    intro x hx
    simp [insertEvent] at hx
    exact Or.inl hx
  | cons kv rest ih =>
    obtain ⟨k', v'⟩ := kv
    intro x hx
    by_cases h1 : k < k'
    · simp [insertEvent, h1] at hx
      rcases hx with hx | hx | hx
      · exact Or.inl hx
      · exact Or.inr (by simp [hx])
      · exact Or.inr (by simp [hx])
    · by_cases h2 : k = k'
      · subst h2
        simp [insertEvent, h1] at hx
        rcases hx with hx | hx
        · exact Or.inl hx
        · exact Or.inr (by simp [hx])
      · simp [insertEvent, h1, h2] at hx
        rcases hx with hx | ⟨x1, hx⟩
        · exact Or.inr (by simp [hx])
        · rcases ih x (List.mem_map.mpr ⟨(x, x1), hx, rfl⟩) with hx' | hx'
          · exact Or.inl hx'
          · exact Or.inr (by simp [hx'])

/-- Sorted-position insert keeps the key list strictly sorted. -/
theorem insertEvent_sorted (k : String) (v : EventRecord) :
    ∀ (es : List (String × EventRecord)),
    List.Sorted (fun a b : String => a < b) (es.map Prod.fst) →
    List.Sorted (fun a b : String => a < b) ((insertEvent es k v).map Prod.fst) := by
  intro es
  induction es with
  | nil => intro _; simp [insertEvent]
  | cons kv rest ih =>
    obtain ⟨k', v'⟩ := kv
    intro hs
    rw [List.map_cons] at hs
    have hs' : List.Sorted (fun a b : String => a < b) (rest.map Prod.fst) :=
      hs.of_cons
    have hhead : ∀ b ∈ rest.map Prod.fst, k' < b := List.rel_of_sorted_cons hs
    by_cases h1 : k < k'
    · simp only [insertEvent, if_pos h1, List.map_cons]
      refine List.sorted_cons.mpr ⟨?_, hs⟩
      intro b hb
      rcases List.mem_cons.mp hb with hb' | hb'
      · exact hb' ▸ h1
      · exact lt_trans h1 (hhead b hb')
    · by_cases h2 : k = k'
      · subst h2
        simp only [insertEvent, if_neg h1, if_pos rfl, List.map_cons]
        exact List.sorted_cons.mpr ⟨hhead, hs'⟩
      · simp only [insertEvent, if_neg h1, if_neg h2, List.map_cons]
        refine List.sorted_cons.mpr ⟨?_, ih hs'⟩
        intro b hb
        rcases insertEvent_keys_sub k v rest b hb with rfl | hbr
        · exact lt_of_le_of_ne (le_of_not_lt h1) (Ne.symm h2)
        · exact hhead b hbr

/-- One upsert step keeps the key list strictly sorted. -/
theorem mergeCandidate_sorted (now : Timestamp) (acc : MergeAcc) (c : CandidateEvent)
    (h : List.Sorted (fun a b : String => a < b) (acc.events.map Prod.fst)) :
    List.Sorted (fun a b : String => a < b) ((mergeCandidate now acc c).events.map Prod.fst) := by
  unfold mergeCandidate normalizeCandidate
  cases hget : getEvent acc.events
      (stable_uid { c with categories := dedupAdj (sortStrings c.categories) }) with
  | none =>
    simp only [hget]
    exact insertEvent_sorted _ _ acc.events h
  | some stored =>
    by_cases hr : stored.revision_hash =
        revision_hash { c with categories := dedupAdj (sortStrings c.categories) } <;>
      simp only [hget, if_pos, if_neg, ne_eq, hr, not_true_eq_false, not_false_eq_true,
        ite_true, ite_false] <;>
      rw [setEvent_keys] <;> exact h

/-- The whole upsert loop keeps the key list strictly sorted. -/
theorem foldl_merge_sorted (now : Timestamp) :
    ∀ (cands : List CandidateEvent) (acc : MergeAcc),
    List.Sorted (fun a b : String => a < b) (acc.events.map Prod.fst) →
    List.Sorted (fun a b : String => a < b)
      (((cands.foldl (mergeCandidate now) acc).events).map Prod.fst) := by
  intro cands
  induction cands with
  | nil => intro acc h; exact h
  | cons c cs ih =>
    intro acc h
    exact ih (mergeCandidate now acc c) (mergeCandidate_sorted now acc c h)

/-- The key list survives the sweep's value-only map untouched. -/
theorem keys_mapVal (g : EventRecord → EventRecord) :
    ∀ (es : List (String × EventRecord)),
    ((es.map (fun kv => (kv.1, g kv.2))).map Prod.fst) = es.map Prod.fst := by
  intro es
  induction es with
  | nil => rfl
  | cons kv rest ih => simp [ih]

/-- Appending a closing brace makes it the last character. -/
theorem string_last_brace (a : String) : (a ++ "\x7d").data.getLast? = some '\x7d' := by
  have h : (a ++ "\x7d").data = a.data ++ ['\x7d'] := rfl
  rw [h, List.getLast?_concat]

/-- `save_state_content` always ends with the closing brace of the
top-level object — `serde_json::to_string_pretty` appends no newline. -/
theorem save_state_content_last (s : State) :
    (save_state_content s).data.getLast? = some '\x7d' := by
  simp only [save_state_content, objectPretty]
  exact string_last_brace _

/-- Claim C8, amended: `save_state` writes the pretty-printed JSON document
with the `events` keys emitted in strictly sorted order (the stored-map
invariant, preserved by every merge run), and the written content ends with
the top-level closing brace — there is no trailing newline. -/
theorem C8_sorted_keys_no_trailing_newline (s : State)
    (hsorted : List.Sorted (fun a b : String => a < b) (s.events.map Prod.fst)) :
    List.Sorted (fun a b : String => a < b) (emittedEventKeys s) ∧
    (save_state_content s).data.getLast? = some '\x7d' ∧
    (∀ (key : String) (cands : List CandidateEvent) (rep : SourceRunReport) (now : Timestamp),
      List.Sorted (fun a b : String => a < b)
        (((merge_source_events s key cands rep now).1.events).map Prod.fst)) := by
  refine ⟨hsorted, save_state_content_last s, ?_⟩
  intro key cands rep now
  simp only [merge_source_events]
  rw [sweepEvents_fst, keys_mapVal]
  exact foldl_merge_sorted now cands ⟨s.events, rep, ∅, ∅⟩ hsorted

/-- Claim C8, refuted as stated: the bytes written for the empty default
state end with the closing brace, not with a trailing newline. -/
theorem C8_counterexample_no_trailing_newline :
    (save_state_content ⟨1, []⟩).data.getLast? ≠ some '\n' := by
  decide

/-- Two-record sorted state for the C8 witness. -/
def stW8 : State := ⟨1, [("a", recOtherSrc), ("b", recAtMax)]⟩

/-- The witness state's key list is strictly sorted. -/
theorem keys_ab_sorted : List.Sorted (fun a b : String => a < b) ["a", "b"] := by
  simp only [List.sorted_cons, List.mem_singleton, List.sorted_singleton, and_true,
    forall_eq, String.lt_iff_toList_lt]
  decide

/-- Witness for the amended C8 at a concrete input. -/
theorem C8_witness :
    List.Sorted (fun a b : String => a < b) (stW8.events.map Prod.fst) ∧
    (List.Sorted (fun a b : String => a < b) (emittedEventKeys stW8) ∧
     (save_state_content stW8).data.getLast? = some '\x7d' ∧
     (∀ (key : String) (cands : List CandidateEvent) (rep : SourceRunReport) (now : Timestamp),
       List.Sorted (fun a b : String => a < b)
         (((merge_source_events stW8 key cands rep now).1.events).map Prod.fst))) :=
  ⟨by simpa [stW8] using keys_ab_sorted,
   C8_sorted_keys_no_trailing_newline stW8 (by simpa [stW8] using keys_ab_sorted)⟩
